import Mathlib

/-!
Shallow embedding of `src/Graph.py`, a QGIS processing script that derives an
adjacency graph from polygon features grouped by an attribute field.

Modelling conventions:
* Coordinates are integers (the source uses host floats only through `min`,
  `max` and order comparisons, which this model reproduces exactly).
* A geometry is modelled by its `asPolygon()` form: a list of rings, each ring
  a list of points.  Exact geometry intersection is an external engine
  primitive (`QgsGeometry.intersects`) and is kept abstract in a `GeoCtx`;
  concrete instantiations are used for witnesses and counterexamples.
* Python dictionaries keyed by strings are modelled as association lists or as
  total functions, as noted at each definition; Python sets are modelled as
  lists (iteration order is arbitrary but fixed in Python, so theorems
  quantify over the order).
* Raised Python exceptions are modelled with `Except`; a plain `None` return
  (not an exception) is modelled with `Option.none`.
-/

deriving instance DecidableEq for Except

structure Point where
  x : Int
  y : Int
  deriving DecidableEq

abbrev PolyRing := List Point

abbrev Geometry := List PolyRing

/-- `QgsRectangle` data: the source passes bounds around as the list
`[xMin, yMin, xMax, yMax]`; the four components are kept as named fields in
the same order. -/
structure Rect where
  xMin : Int
  yMin : Int
  xMax : Int
  yMax : Int
  deriving DecidableEq

/-- `QgsRectangle.intersects`: the overlap interval `[max(mins), min(maxes)]`
must be non-empty on both axes; rectangles that merely touch do intersect
(the engine compares with `>`, so equality passes). -/
def Rect.intersects (r s : Rect) : Bool :=
  decide (max r.xMin s.xMin ≤ min r.xMax s.xMax) &&
  decide (max r.yMin s.yMin ≤ min r.yMax s.yMax)

/-- `smallRectangle(bounds1, bounds2)` from the source (lines 275-289):
the componentwise max/min overlap of the two bounds lists. -/
def smallRectangle (bounds1 bounds2 : Rect) : Rect :=
  ⟨max bounds1.xMin bounds2.xMin, max bounds1.yMin bounds2.yMin,
   min bounds1.xMax bounds2.xMax, min bounds1.yMax bounds2.yMax⟩

/-- Python `min` over the non-empty list `a :: l`. -/
def listMin1 (a : Int) (l : List Int) : Int := l.foldl min a

/-- Python `max` over the non-empty list `a :: l`. -/
def listMax1 (a : Int) (l : List Int) : Int := l.foldl max a

/-- Python exceptions raised by the embedded fragments:
`valueError` models `ValueError` from `min([])` / `max([])`,
`indexError` models `IndexError` from an out-of-range list subscript. -/
inductive GErr where
  | valueError
  | indexError
  deriving DecidableEq

/-- `rectBounds(geometry)` from the source (lines 12-29), faithfully including
its defect: the loop runs `for i in range(len(coordList))`, i.e. over the
NUMBER OF RINGS, while subscripting `coordList[0][i]`, so only the first
`len(coordList)` vertices of ring 0 are visited.  `ring0.take geometry.length`
is exactly that visited prefix; the guard reproduces the `IndexError` when the
ring is shorter than the number of rings, and an empty visited prefix (no
rings at all, e.g. a non-polygon geometry) reproduces the `ValueError` raised
by `min([])`. -/
def rectBounds (geometry : Geometry) : Except GErr Rect :=
  let ring0 := geometry.headD []
  if ring0.length < geometry.length then .error .indexError
  else
    match ring0.take geometry.length with
    | [] => .error .valueError
    | p :: ps =>
      .ok ⟨listMin1 p.x (ps.map Point.x), listMin1 p.y (ps.map Point.y),
           listMax1 p.x (ps.map Point.x), listMax1 p.y (ps.map Point.y)⟩

/-- A QGIS feature: stable id, geometry (its `asPolygon()` form) and the
attribute record (field name to raw value, values string-normalised). -/
structure Feature where
  fid : Nat
  geom : Geometry
  attrs : List (String × String)
  deriving DecidableEq

/-- `feature[field]`: attribute lookup; schema fields are always present, a
missing name defaults to the empty string. -/
def attrOf (f : Feature) (fld : String) : String :=
  (Option.map Prod.snd (f.attrs.find? (fun kv => kv.1 == fld))).getD ""

/-- All vertices of a geometry, every ring included. -/
def pointsOf (g : Geometry) : List Point := g.foldl (fun acc ring => acc ++ ring) []

/-- `QgsGeometry.boundingBox()`: the true axis-aligned bounding box over all
vertices of the geometry (`none` for an empty geometry).  This is the engine
primitive used by the spatial index; it is distinct from the source's own
(buggy) `rectBounds`. -/
def trueBounds (g : Geometry) : Option Rect :=
  match pointsOf g with
  | [] => none
  | p :: ps =>
    some ⟨listMin1 p.x (ps.map Point.x), listMin1 p.y (ps.map Point.y),
          listMax1 p.x (ps.map Point.x), listMax1 p.y (ps.map Point.y)⟩

/-- One record of a `QgsSpatialIndex`: a feature id with the bounding box the
index stored for it. -/
structure IndexEntry where
  fid : Nat
  bbox : Rect
  deriving DecidableEq

abbrev SpatialIndex := List IndexEntry

/-- `QgsSpatialIndex.insertFeature(feature)`: stores the feature id under the
feature's true bounding box; inserting an empty geometry is a no-op. -/
def insertFeature (idx : SpatialIndex) (f : Feature) : SpatialIndex :=
  match trueBounds f.geom with
  | some r => idx ++ [⟨f.fid, r⟩]
  | none => idx

/-- `QgsSpatialIndex.intersects(rect)`: ids of the stored entries whose
bounding box intersects the query rectangle. -/
def SpatialIndex.intersects (idx : SpatialIndex) (r : Rect) : List Nat :=
  (idx.filter (fun e => Rect.intersects e.bbox r)).map IndexEntry.fid

/-- The expression built by `buildExpression` (source lines 83-99): an
attribute equality, either with numeric literal syntax (the value parsed as a
number) or with quoted string literal syntax. -/
inductive QgsExpression where
  | numEq (field : String) (value : String)
  | strEq (field : String) (value : String)
  deriving DecidableEq

/-- `buildExpression(field, value)`: numeric literal form when `float(value)`
succeeds, quoted string form otherwise.  The host numeric parse (`float`) is
abstract and passed as `parseNum`. -/
def buildExpression (parseNum : String → Option Int) (field value : String) :
    QgsExpression :=
  match parseNum value with
  | some _ => .numEq field value
  | none => .strEq field value

/-- `filter(layer, exp)` (source lines 32-53): the features of the layer, in
layer order, on which the compiled expression evaluates to a truthy value.
Expression parse/eval failures are outside the embedded claims, so the
compiled expression is an abstract total predicate. -/
def filter (layer : List Feature) (p : Feature → Bool) : List Feature :=
  match layer with
  | [] => []
  | f :: rest => if p f then f :: filter rest p else filter rest p

/-- `quickFilter(layer, exp)` (source lines 56-80): returns the first feature
satisfying the expression; when no feature satisfies it the loop falls
through and the function returns Python `None` — a normal return, not an
exception — modelled as `Option.none`. -/
def quickFilter (layer : List Feature) (p : Feature → Bool) : Option Feature :=
  match layer with
  | [] => none
  | f :: rest => if p f then some f else quickFilter rest p

/-- The inner loop of `boundsAndIndexDict` (source lines 230-235): walk the
matching features, inserting each into the group's spatial index and
extending the coordinate accumulators with the `rectBounds` values
`[fb[0], fb[2]]` / `[fb[1], fb[3]]`.  A `rectBounds` failure propagates (the
partially built local index is discarded with the exception, as in the
source). -/
def scanGroupAux : List Feature → SpatialIndex → List Int → List Int →
    Except GErr (SpatialIndex × List Int × List Int)
  | [], idx, xs, ys => .ok (idx, xs, ys)
  | f :: rest, idx, xs, ys =>
    match rectBounds f.geom with
    | .error e => .error e
    | .ok fb =>
      scanGroupAux rest (insertFeature idx f) (xs ++ [fb.xMin, fb.xMax])
        (ys ++ [fb.yMin, fb.yMax])

/-- One iteration of the `boundsAndIndexDict` outer loop (source lines
224-237): scan the group's matching features, then take `min`/`max` of the
accumulated coordinates — `min([])` raises `ValueError` when the group has no
matching feature. -/
def groupEntry (evalB : QgsExpression → Feature → Bool)
    (parseNum : String → Option Int) (layer : List Feature)
    (field value : String) : Except GErr (Rect × SpatialIndex) :=
  match scanGroupAux (filter layer (evalB (buildExpression parseNum field value)))
      [] [] [] with
  | .error e => .error e
  | .ok (idx, xs, ys) =>
    match xs, ys with
    | x0 :: xr, y0 :: yr =>
      .ok (⟨listMin1 x0 xr, listMin1 y0 yr, listMax1 x0 xr, listMax1 y0 yr⟩, idx)
    | _, _ => .error .valueError

/-- `boundsAndIndexDict(layer, valueSet, field)` (source lines 203-239): the
dictionary value -> [bounds, spatialIndex], built in iteration order; the
first raised exception aborts the whole construction. -/
def boundsAndIndexDict (evalB : QgsExpression → Feature → Bool)
    (parseNum : String → Option Int) (layer : List Feature) (field : String) :
    List String → Except GErr (List (String × Rect × SpatialIndex))
  | [] => .ok []
  | value :: rest =>
    match groupEntry evalB parseNum layer field value with
    | .error e => .error e
    | .ok entry =>
      match boundsAndIndexDict evalB parseNum layer field rest with
      | .error e => .error e
      | .ok tail => .ok ((value, entry) :: tail)

/-- The external geometry engine: exact binary geometry intersection
(`QgsGeometry.intersects`). -/
structure GeoCtx where
  gIntersects : Geometry → Geometry → Bool

/-- The `edges` lists of the graph dictionary, as a total map from field value
to its current edge list. -/
abbrev EdgeMap := String → List String

/-- `dictionary[k]['edges'].append(v)`. -/
def appendEdge (d : EdgeMap) (k v : String) : EdgeMap :=
  fun x => if x = k then d x ++ [v] else d x

/-- `updateEdges(dictionary, fieldValue1, fieldValue2)` (source lines
102-115): appends `fieldValue2` to `fieldValue1`'s edge list and then
`fieldValue1` to `fieldValue2`'s edge list (two appends to the same list when
the two values coincide). -/
def updateEdges (d : EdgeMap) (fieldValue1 fieldValue2 : String) : EdgeMap :=
  appendEdge (appendEdge d fieldValue1 fieldValue2) fieldValue2 fieldValue1

/-- The exact geometry test of the source line 164:
`feature2.geometry().intersects(feature1.geometry())`, with `features` the
id -> feature dictionary. -/
def exactTest (ctx : GeoCtx) (features : Nat → Feature) (id1 id2 : Nat) : Bool :=
  ctx.gIntersects (features id2).geom (features id1).geom

/-- The candidate scan of `findEdges` (source lines 155-167).  The
`while (finish is False)` wrapper executes its body exactly once: `finish` is
set to `True` unconditionally after the `for id1` loop, and the loops are
never broken out of, so every candidate pair is exactly-tested and EVERY true
test appends an edge. -/
def exactScan (ctx : GeoCtx) (features : Nat → Feature) (value1 value2 : String)
    (ids1 ids2 : List Nat) (d : EdgeMap) : EdgeMap :=
  ids1.foldl
    (fun dd id1 =>
      ids2.foldl
        (fun ddd id2 =>
          if exactTest ctx features id1 id2 then updateEdges ddd value1 value2
          else ddd)
        dd)
    d

/-- The body of the nested loops of `findEdges` for one ordered pair
`(value1, value2)` (source lines 146-167): bounding-box prefilter, overlap
refinement, candidate retrieval from both indices, then the exact scan. -/
def pairStep (ctx : GeoCtx) (bid : String → Rect × SpatialIndex)
    (features : Nat → Feature) (value1 : String) (d : EdgeMap)
    (value2 : String) : EdgeMap :=
  if Rect.intersects (bid value1).1 (bid value2).1 then
    exactScan ctx features value1 value2
      (SpatialIndex.intersects (bid value1).2
        (smallRectangle (bid value1).1 (bid value2).1))
      (SpatialIndex.intersects (bid value2).2
        (smallRectangle (bid value1).1 (bid value2).1))
      d
  else d

/-- `findEdges(valueSet, boundsIndexDict, graphDict, features)` (source lines
118-168), faithfully including its defect: the copy `valueSet2` is shrunk
with `valueSet2.remove(value1)` but the inner loop iterates the FULL
`valueSet`, so every ordered pair (both orders of each distinct pair, and
each self pair once) is evaluated. -/
def findEdges (ctx : GeoCtx) (valueSet : List String)
    (bid : String → Rect × SpatialIndex) (d : EdgeMap)
    (features : Nat → Feature) : EdgeMap :=
  valueSet.foldl
    (fun dd value1 => valueSet.foldl (pairStep ctx bid features value1) dd) d

/-- A stored vertex attribute value: the dynamic try-numeric-else-text typing
of `addAttributesDict`. -/
inductive AttrVal where
  | num (v : Int)
  | text (s : String)
  deriving DecidableEq

/-- One attribute cell of `addAttributesDict` (source lines 266-270):
`float(featureInstance[field])` on success, else `str(...)`. -/
def attrVal (parseNum : String → Option Int) (f : Feature) (fld : String) :
    AttrVal :=
  match parseNum (attrOf f fld) with
  | some n => .num n
  | none => .text (attrOf f fld)

/-- The attributes dictionary for one representative feature, one entry per
schema field. -/
def attrRow (parseNum : String → Option Int) (f : Feature)
    (layerFields : List String) : List (String × AttrVal) :=
  layerFields.map (fun fld => (fld, attrVal parseNum f fld))

/-- The attribute row for one key of `addAttributesDict`: when `quickFilter`
finds no representative, the first `featureInstance[field]` subscript raises
`TypeError` on `None` — inside the bare `except:` the handler subscripts
`None` again and the second `TypeError` escapes, aborting the run (modelled
`none`); with an empty schema no subscript happens and the row is empty. -/
def rowFor (evalB : QgsExpression → Feature → Bool)
    (parseNum : String → Option Int) (layer : List Feature)
    (vertexField : String) (layerFields : List String) (key : String) :
    Option (List (String × AttrVal)) :=
  match quickFilter layer (evalB (buildExpression parseNum vertexField key)) with
  | some f => some (attrRow parseNum f layerFields)
  | none => if layerFields.isEmpty then some [] else none

/-- `addAttributesDict(layer, vertexField, layerFields, graphDictionary)`
(source lines 242-272): one representative per key via `quickFilter`, one
attribute row per key; an uncaught exception aborts the whole pass. -/
def addAttributesDict (evalB : QgsExpression → Feature → Bool)
    (parseNum : String → Option Int) (layer : List Feature)
    (vertexField : String) (layerFields : List String) :
    List String → Option (List (String × List (String × AttrVal)))
  | [] => some []
  | key :: rest =>
    match rowFor evalB parseNum layer vertexField layerFields key with
    | none => none
    | some row =>
      match addAttributesDict evalB parseNum layer vertexField layerFields rest with
      | none => none
      | some out => some ((key, row) :: out)

/-- The failure the spec assigns to a missing representative. -/
inductive QErr where
  | notFound
  deriving DecidableEq

/-- Modelled from the spec: `queryFirst(source, predicate)` "returns the first
match or fails with NotFoundError" (spec 4.2).  This definition follows the
spec's words; the source's `quickFilter` is the code-side counterpart. -/
def queryFirstSpec (layer : List Feature) (p : Feature → Bool) :
    Except QErr Feature :=
  match layer.find? p with
  | some f => .ok f
  | none => .error .notFound

/-- Point-in-rectangle, used to state enclosure of vertices. -/
def inRect (p : Point) (r : Rect) : Prop :=
  r.xMin ≤ p.x ∧ p.x ≤ r.xMax ∧ r.yMin ≤ p.y ∧ p.y ≤ r.yMax

instance (p : Point) (r : Rect) : Decidable (inRect p r) := by
  unfold inRect; infer_instance

/-! ### Concrete instantiations of the external primitives, for witnesses -/

/-- A concrete numeric parse standing in for Python `float` in witnesses:
accepts non-empty digit strings. -/
def decimalParse (s : String) : Option Int :=
  match s.toList with
  | [] => none
  | cs =>
    if cs.all Char.isDigit then
      some (cs.foldl (fun n c => n * 10 + Int.ofNat (c.toNat - 48)) 0)
    else none

/-- A concrete expression engine for witnesses: attribute equality on the
string-normalised value (both literal forms compare the stored string). -/
def evalEq : QgsExpression → Feature → Bool
  | .numEq fld v, f => attrOf f fld == v
  | .strEq fld v, f => attrOf f fld == v

/-- A concrete geometry engine for witnesses: every scenario geometry below is
an axis-aligned rectangle, for which exact intersection (touching included)
coincides with bounding-box intersection. -/
def ctxBox : GeoCtx :=
  ⟨fun g1 g2 =>
    match trueBounds g1, trueBounds g2 with
    | some r1, some r2 => Rect.intersects r1 r2
    | _, _ => false⟩

/-- Dictionary lookup (with an irrelevant default) turning the association
list built by `boundsAndIndexDict` into the total map `findEdges` reads; in
the source a missing key would be a `KeyError`, but `findEdges` is only ever
called with the dictionary built over the same `valueSet`. -/
def dictFun (l : List (String × Rect × SpatialIndex)) :
    String → Rect × SpatialIndex :=
  fun k => (Option.map Prod.snd (l.find? (fun kv => kv.1 == k))).getD
    (⟨0, 0, 0, 0⟩, [])

/-- The unit square as a closed single-ring polygon. -/
def unitSquare : Geometry := [[⟨0, 0⟩, ⟨1, 0⟩, ⟨1, 1⟩, ⟨0, 1⟩, ⟨0, 0⟩]]

/-! Scenario for C1 (spec 8, scenario "x two disjoint members, y one member
touching only the second"): group x has members `fx1` (unit square at the
origin) and `fx2` (square from (3,0) to (4,1), ring listed starting at
(4,1)); group y has the single member `fy1` (square from (4,0) to (5,1)),
which touches `fx2` along the line x = 4 and does not touch `fx1`. -/

def fx1 : Feature := ⟨0, unitSquare, [("grp", "x")]⟩

def fx2 : Feature :=
  ⟨1, [[⟨4, 1⟩, ⟨3, 1⟩, ⟨3, 0⟩, ⟨4, 0⟩, ⟨4, 1⟩]], [("grp", "x")]⟩

def fy1 : Feature :=
  ⟨2, [[⟨4, 0⟩, ⟨5, 0⟩, ⟨5, 1⟩, ⟨4, 1⟩, ⟨4, 0⟩]], [("grp", "y")]⟩

def layerXY : List Feature := [fx1, fx2, fy1]

def featuresXY : Nat → Feature :=
  fun n => if n == 0 then fx1 else if n == 1 then fx2 else fy1

/-! Scenario for C3: two singleton groups a and b whose members share the
edge x = 1 (rings listed starting at the shared corner (1,0), so that the
per-group bounds — built from the defective `rectBounds` — still pass the
prefilter). -/

def fa : Feature :=
  ⟨0, [[⟨1, 0⟩, ⟨0, 0⟩, ⟨0, 1⟩, ⟨1, 1⟩, ⟨1, 0⟩]], [("grp", "a")]⟩

def fb : Feature :=
  ⟨1, [[⟨1, 0⟩, ⟨2, 0⟩, ⟨2, 1⟩, ⟨1, 1⟩, ⟨1, 0⟩]], [("grp", "b")]⟩

def layerAB : List Feature := [fa, fb]

def featuresAB : Nat → Feature := fun n => if n == 0 then fa else fb

/-! Concrete inputs for the remaining witnesses. -/

/-- A representative feature with a numeric-looking and a textual attribute. -/
def fRep : Feature :=
  ⟨7, unitSquare, [("grp", "k"), ("size", "42"), ("name", "north")]⟩

/-- A feature whose geometry has no polygonal ring. -/
def fEmptyGeom : Feature := ⟨0, [], [("grp", "z")]⟩

def fg : Feature := ⟨5, unitSquare, [("grp", "g")]⟩

def featsG : Nat → Feature := fun _ => fg

def bidG : String → Rect × SpatialIndex :=
  fun _ => (⟨0, 0, 0, 0⟩, [⟨5, ⟨0, 0, 1, 1⟩⟩])

def fp : Feature := ⟨0, unitSquare, [("grp", "p")]⟩

def fq : Feature :=
  ⟨1, [[⟨5, 5⟩, ⟨6, 5⟩, ⟨6, 6⟩, ⟨5, 6⟩, ⟨5, 5⟩]], [("grp", "q")]⟩

def featsPQ : Nat → Feature := fun n => if n == 0 then fp else fq

def bidPQ : String → Rect × SpatialIndex :=
  fun k =>
    if k == "p" then (⟨0, 0, 3, 3⟩, [⟨0, ⟨0, 0, 1, 1⟩⟩])
    else (⟨3, 3, 6, 6⟩, [⟨1, ⟨5, 5, 6, 6⟩⟩])

/-! ### Generic fold helpers -/

/-- A predicate preserved by every step of a left fold holds of the result. -/
theorem foldl_pres {α β : Type} (step : β → α → β) (P : β → Prop)
    (hstep : ∀ b a, P b → P (step b a)) (l : List α) (b : β) (hb : P b) :
    P (l.foldl step b) := by
  induction l generalizing b with
  | nil => exact hb
  | cons a t ih => exact ih (step b a) (hstep b a hb)

/-- A predicate established by the step at some list element and preserved by
every step holds of the result of a left fold, whatever the start. -/
theorem foldl_hit {α β : Type} (step : β → α → β) (P : β → Prop)
    (hstep : ∀ b a, P b → P (step b a)) (x : α) (l : List α) (hx : x ∈ l)
    (hhit : ∀ b, P (step b x)) (b : β) : P (l.foldl step b) := by
  induction l generalizing b with
  | nil => cases hx
  | cons a t ih =>
    rcases List.mem_cons.mp hx with rfl | hx2
    · exact foldl_pres step P hstep t (step b x) (hhit b)
    · exact ih hx2 (step b a)

/-- A left fold whose every step fixes the accumulator is the identity. -/
theorem foldl_fix {α β : Type} (step : β → α → β) (l : List α)
    (h : ∀ b a, a ∈ l → step b a = b) (b : β) : l.foldl step b = b := by
  induction l generalizing b with
  | nil => rfl
  | cons a t ih =>
    rw [List.foldl_cons, h b a (List.mem_cons_self a t)]
    exact ih (fun b2 a2 ha => h b2 a2 (List.mem_cons_of_mem a ha)) b

/-! ### Membership lemmas for the edge maps -/

theorem mem_appendEdge (d : EdgeMap) (k v : String) (x k2 : String) :
    x ∈ appendEdge d k v k2 ↔ x ∈ d k2 ∨ (k2 = k ∧ x = v) := by
  unfold appendEdge
  by_cases h : k2 = k
  · subst h; simp
  · simp [h]

theorem mem_updateEdges (d : EdgeMap) (v1 v2 x k : String) :
    x ∈ updateEdges d v1 v2 k ↔
      (x ∈ d k ∨ (k = v1 ∧ x = v2)) ∨ (k = v2 ∧ x = v1) := by
  unfold updateEdges
  rw [mem_appendEdge, mem_appendEdge]

theorem mem_mono_updateEdges (d : EdgeMap) (v1 v2 x k : String)
    (h : x ∈ d k) : x ∈ updateEdges d v1 v2 k :=
  (mem_updateEdges d v1 v2 x k).mpr (Or.inl (Or.inl h))

theorem mem_mono_exactScan (ctx : GeoCtx) (features : Nat → Feature)
    (v1 v2 : String) (ids1 ids2 : List Nat) (d : EdgeMap) (x k : String)
    (h : x ∈ d k) : x ∈ exactScan ctx features v1 v2 ids1 ids2 d k := by
  unfold exactScan
  refine foldl_pres _ (fun dd => x ∈ dd k) ?_ ids1 d h
  intro dd i1 hdd
  refine foldl_pres _ (fun dd => x ∈ dd k) ?_ ids2 dd hdd
  intro ddd i2 hd
  dsimp only
  split
  · exact mem_mono_updateEdges ddd v1 v2 x k hd
  · exact hd

theorem mem_mono_pairStep (ctx : GeoCtx) (bid : String → Rect × SpatialIndex)
    (features : Nat → Feature) (v1 : String) (d : EdgeMap) (v2 : String)
    (x k : String) (h : x ∈ d k) :
    x ∈ pairStep ctx bid features v1 d v2 k := by
  unfold pairStep
  split
  · exact mem_mono_exactScan ctx features v1 v2 _ _ d x k h
  · exact h

/-- Anything in an edge list after `exactScan` was already there or is one of
the two symmetric appends of the scanned ordered pair. -/
theorem mem_exactScan_cases (ctx : GeoCtx) (features : Nat → Feature)
    (v1 v2 : String) (ids1 ids2 : List Nat) (d : EdgeMap) (x k : String)
    (h : x ∈ exactScan ctx features v1 v2 ids1 ids2 d k) :
    x ∈ d k ∨ (k = v1 ∧ x = v2) ∨ (k = v2 ∧ x = v1) := by
  revert h
  unfold exactScan
  refine foldl_pres _
    (fun dd => x ∈ dd k → x ∈ d k ∨ (k = v1 ∧ x = v2) ∨ (k = v2 ∧ x = v1))
    ?_ ids1 d (fun hx => Or.inl hx)
  intro dd i1 hdd
  refine foldl_pres _
    (fun ddd => x ∈ ddd k → x ∈ d k ∨ (k = v1 ∧ x = v2) ∨ (k = v2 ∧ x = v1))
    ?_ ids2 dd hdd
  intro ddd i2 hd hx
  revert hx
  dsimp only
  split
  · intro hx
    rcases (mem_updateEdges ddd v1 v2 x k).mp hx with hx2 | hx2
    · rcases hx2 with hx3 | hx3
      · exact hd hx3
      · exact Or.inr (Or.inl hx3)
    · exact Or.inr (Or.inr hx2)
  · exact hd

/-- `exactScan` is the identity when no candidate pair passes the exact test. -/
theorem exactScan_fix (ctx : GeoCtx) (features : Nat → Feature)
    (v1 v2 : String) (ids1 ids2 : List Nat) (d : EdgeMap)
    (h : ∀ i1 ∈ ids1, ∀ i2 ∈ ids2, exactTest ctx features i1 i2 = false) :
    exactScan ctx features v1 v2 ids1 ids2 d = d := by
  unfold exactScan
  refine foldl_fix _ ids1 ?_ d
  intro dd i1 hi1
  refine foldl_fix _ ids2 ?_ dd
  intro ddd i2 hi2
  dsimp only
  rw [h i1 hi1 i2 hi2]
  rfl

/-- `exactScan` records the edge of its ordered pair as soon as one candidate
pair passes the exact test. -/
theorem exactScan_hit (ctx : GeoCtx) (features : Nat → Feature)
    (v1 v2 : String) (ids1 ids2 : List Nat) (d : EdgeMap) (i1 i2 : Nat)
    (h1 : i1 ∈ ids1) (h2 : i2 ∈ ids2)
    (ht : exactTest ctx features i1 i2 = true) :
    v2 ∈ exactScan ctx features v1 v2 ids1 ids2 d v1 := by
  unfold exactScan
  refine foldl_hit _ (fun dd => v2 ∈ dd v1) ?_ i1 ids1 h1 ?_ d
  · intro dd a hdd
    refine foldl_pres _ (fun ddd => v2 ∈ ddd v1) ?_ ids2 dd hdd
    intro ddd b hd
    dsimp only
    split
    · exact mem_mono_updateEdges ddd v1 v2 v2 v1 hd
    · exact hd
  · intro dd
    refine foldl_hit _ (fun ddd => v2 ∈ ddd v1) ?_ i2 ids2 h2 ?_ dd
    · intro ddd b hd
      dsimp only
      split
      · exact mem_mono_updateEdges ddd v1 v2 v2 v1 hd
      · exact hd
    · intro ddd
      dsimp only
      rw [ht]
      simp only [if_true]
      exact (mem_updateEdges ddd v1 v2 v2 v1).mpr (Or.inl (Or.inr ⟨rfl, rfl⟩))

/-- Elements returned by an index query are ids of stored entries whose box
intersects the query rectangle. -/
theorem mem_index_query (idx : SpatialIndex) (r : Rect) (i : Nat)
    (h : i ∈ SpatialIndex.intersects idx r) :
    ∃ e, e ∈ idx ∧ Rect.intersects e.bbox r = true ∧ e.fid = i := by
  unfold SpatialIndex.intersects at h
  rcases List.mem_map.mp h with ⟨e, he, hfid⟩
  rcases List.mem_filter.mp he with ⟨hmem, hbb⟩
  exact ⟨e, hmem, hbb, hfid⟩

/-- Conversely, a stored entry whose box meets the query rectangle is
returned. -/
theorem fid_mem_index_query (idx : SpatialIndex) (r : Rect) (e : IndexEntry)
    (he : e ∈ idx) (hbb : Rect.intersects e.bbox r = true) :
    e.fid ∈ SpatialIndex.intersects idx r := by
  unfold SpatialIndex.intersects
  exact List.mem_map_of_mem _ (List.mem_filter.mpr ⟨he, hbb⟩)

/-! ### Claim theorems -/

/-- C2 (code bug): on a plain one-ring square polygon, `rectBounds` returns
the degenerate rectangle at the first vertex — because the source loop visits
`range(len(coordList))` vertices, i.e. as many vertices as there are RINGS —
and the returned rectangle fails to enclose the vertex (1,1) of the ring, so
it is not a rectangle "that encloses every vertex of the outer boundary ring
with each bound attained". -/
theorem rectBounds_misses_vertices :
    rectBounds unitSquare = .ok ⟨0, 0, 0, 0⟩ ∧
    (⟨1, 1⟩ : Point) ∈ unitSquare.headD [] ∧
    ¬ inRect ⟨1, 1⟩ ⟨0, 0, 0, 0⟩ := by
  decide

/-- C6 counterexample: two bounding boxes that touch along the line x = 1
pass the `QgsRectangle.intersects` prefilter, yet their `smallRectangle`
overlap is degenerate (zero width), refuting "always non-degenerate
(xMin < xMax and yMin < yMax) when the prefilter passed". -/
theorem smallRectangle_degenerate :
    Rect.intersects ⟨0, 0, 1, 1⟩ ⟨1, 0, 2, 1⟩ = true ∧
    smallRectangle ⟨0, 0, 1, 1⟩ ⟨1, 0, 2, 1⟩ = ⟨1, 0, 1, 1⟩ ∧
    ¬ (smallRectangle ⟨0, 0, 1, 1⟩ ⟨1, 0, 2, 1⟩).xMin <
        (smallRectangle ⟨0, 0, 1, 1⟩ ⟨1, 0, 2, 1⟩).xMax := by
  decide

/-- C6 (amended): whenever the prefilter passes, the refined overlap is
computed componentwise as max of the mins and min of the maxes and is
non-empty — `xMin ≤ xMax` and `yMin ≤ yMax` — though it may be degenerate
(zero width or height) when the boxes merely touch. -/
theorem smallRectangle_overlap_nonempty (bounds1 bounds2 : Rect)
    (h : Rect.intersects bounds1 bounds2 = true) :
    smallRectangle bounds1 bounds2 =
      ⟨max bounds1.xMin bounds2.xMin, max bounds1.yMin bounds2.yMin,
       min bounds1.xMax bounds2.xMax, min bounds1.yMax bounds2.yMax⟩ ∧
    (smallRectangle bounds1 bounds2).xMin ≤ (smallRectangle bounds1 bounds2).xMax ∧
    (smallRectangle bounds1 bounds2).yMin ≤ (smallRectangle bounds1 bounds2).yMax := by
  unfold Rect.intersects at h
  simp only [Bool.and_eq_true, decide_eq_true_eq] at h
  exact ⟨rfl, h.1, h.2⟩

/-- Witness for the C6 amended theorem at concrete overlapping boxes. -/
theorem smallRectangle_overlap_nonempty_witness :
    smallRectangle ⟨0, 0, 2, 2⟩ ⟨1, 1, 3, 3⟩ =
      ⟨max 0 1, max 0 1, min 2 3, min 2 3⟩ ∧
    (smallRectangle ⟨0, 0, 2, 2⟩ ⟨1, 1, 3, 3⟩).xMin ≤
      (smallRectangle ⟨0, 0, 2, 2⟩ ⟨1, 1, 3, 3⟩).xMax ∧
    (smallRectangle ⟨0, 0, 2, 2⟩ ⟨1, 1, 3, 3⟩).yMin ≤
      (smallRectangle ⟨0, 0, 2, 2⟩ ⟨1, 1, 3, 3⟩).yMax :=
  smallRectangle_overlap_nonempty ⟨0, 0, 2, 2⟩ ⟨1, 1, 3, 3⟩ (by decide)

/-- C8 counterexample: on a layer in which no feature satisfies the
predicate, `quickFilter` returns the plain value `None` (modelled `none`) —
the code's loop simply falls through with no `raise` — whereas the claim
requires the `NotFoundError` failure that the spec-side model
`queryFirstSpec` produces.  The code has no such error path. -/
theorem quickFilter_no_match_none :
    quickFilter [fRep] (fun f => attrOf f "grp" == "zzz") = none ∧
    queryFirstSpec [fRep] (fun f => attrOf f "grp" == "zzz") =
      .error .notFound := by
  decide

/-- C8 (amended): `quickFilter` returns the first feature in layer order
satisfying the predicate, and returns `None` — a normal return, not a
`NotFoundError` — when no feature satisfies it. -/
theorem quickFilter_first_match_or_none (layer : List Feature)
    (p : Feature → Bool) :
    (∀ f, quickFilter layer p = some f →
      p f = true ∧ ∃ pre suf, layer = pre ++ f :: suf ∧ ∀ g ∈ pre, p g = false) ∧
    (quickFilter layer p = none → ∀ g ∈ layer, p g = false) := by
  induction layer with
  | nil =>
    refine ⟨fun f hf => Option.noConfusion hf, fun _ g hg => absurd hg ?_⟩
    simp
  | cons f0 rest ih =>
    constructor
    · intro f hf
      by_cases h0 : p f0 = true
      · rw [show quickFilter (f0 :: rest) p = some f0 by simp [quickFilter, h0]]
          at hf
        injection hf with hf
        subst hf
        exact ⟨h0, [], rest, rfl, fun g hg => absurd hg (by simp)⟩
      · rw [show quickFilter (f0 :: rest) p = quickFilter rest p by
          simp [quickFilter, h0]] at hf
        obtain ⟨hpf, pre, suf, hsplit, hpre⟩ := ih.1 f hf
        refine ⟨hpf, f0 :: pre, suf, by rw [hsplit]; rfl, ?_⟩
        intro g hg
        rcases List.mem_cons.mp hg with rfl | hg2
        · exact Bool.not_eq_true _ ▸ h0
        · exact hpre g hg2
    · intro hnone g hg
      by_cases h0 : p f0 = true
      · rw [show quickFilter (f0 :: rest) p = some f0 by simp [quickFilter, h0]]
          at hnone
        exact Option.noConfusion hnone
      · rw [show quickFilter (f0 :: rest) p = quickFilter rest p by
          simp [quickFilter, h0]] at hnone
        rcases List.mem_cons.mp hg with rfl | hg2
        · exact Bool.not_eq_true _ ▸ h0
        · exact ih.2 hnone g hg2

/-- Witness for the C8 amended theorem: on a concrete layer the first (and
only) feature matching the predicate is returned with an empty non-matching
prefix. -/
theorem quickFilter_first_match_or_none_witness :
    (attrOf fRep "grp" == "k") = true ∧
    ∃ pre suf, [fRep] = pre ++ fRep :: suf ∧
      ∀ g ∈ pre, (attrOf g "grp" == "k") = false :=
  (quickFilter_first_match_or_none [fRep] (fun f => attrOf f "grp" == "k")).1
    fRep (by decide)

/-- C1 (code bug, at the spec's own scenario): group x has two disjoint
members and group y has one member touching only the second member of x, yet
running the pipeline (`boundsAndIndexDict` then `findEdges`) records the x-y
edge TWICE — y appears twice in x's edge list and x twice in y's — because
the `finish` flag never breaks out of the candidate loops (every intersecting
candidate pair appends an edge) and the inner loop revisits the pair from the
opposite order.  The first three conjuncts pin the scenario: the two members
of x are disjoint, and y's member touches the second member of x only. -/
theorem findEdges_scenario_xy_double :
    ctxBox.gIntersects fx1.geom fx2.geom = false ∧
    ctxBox.gIntersects fy1.geom fx1.geom = false ∧
    ctxBox.gIntersects fy1.geom fx2.geom = true ∧
    (boundsAndIndexDict evalEq decimalParse layerXY "grp" ["x", "y"]).toOption.map
      (fun l =>
        (((findEdges ctxBox ["x", "y"] (dictFun l) (fun _ => []) featuresXY) "x").count "y",
         ((findEdges ctxBox ["x", "y"] (dictFun l) (fun _ => []) featuresXY) "y").count "x"))
      = some (2, 2) := by
  decide

/-- C3 (code bug): with two singleton groups a and b whose only members touch,
the pipeline records b twice in a's edge list.  Each group's index holds a
single entry (first two conjuncts), so each ordered evaluation of the pair
can append at most one edge — a count of 2 therefore shows the unordered pair
{a, b} was evaluated from both orders: the shrinking copy `valueSet2` is
computed but the inner loop iterates the full `valueSet`. -/
theorem findEdges_pair_both_orders :
    (boundsAndIndexDict evalEq decimalParse layerAB "grp" ["a", "b"]).toOption.map
      (fun l =>
        ((dictFun l "a").2.length, (dictFun l "b").2.length,
         ((findEdges ctxBox ["a", "b"] (dictFun l) (fun _ => []) featuresAB) "a").count "b"))
      = some (1, 1, 2) := by
  decide

/-- C4: for two distinct group keys all of whose member geometries are
pairwise disjoint (no member of one exactly intersects any member of the
other, in either orientation of the engine test), `findEdges` records no edge
between them: the bounding-box prefilter and the index candidate retrieval
alone never create an edge, since every append is guarded by the exact
geometry test. -/
theorem findEdges_no_edge_when_disjoint (ctx : GeoCtx) (valueSet : List String)
    (bid : String → Rect × SpatialIndex) (d0 : EdgeMap)
    (features : Nat → Feature) (g1 g2 : String) (hne : g1 ≠ g2)
    (hdisj : ∀ e1 ∈ (bid g1).2, ∀ e2 ∈ (bid g2).2,
      ctx.gIntersects (features e1.fid).geom (features e2.fid).geom = false ∧
      ctx.gIntersects (features e2.fid).geom (features e1.fid).geom = false)
    (h0 : g2 ∉ d0 g1) :
    g2 ∉ findEdges ctx valueSet bid d0 features g1 := by
  unfold findEdges
  refine foldl_pres _ (fun d => g2 ∉ d g1) ?_ valueSet d0 h0
  intro d v1 hd
  refine foldl_pres _ (fun d => g2 ∉ d g1) ?_ valueSet d hd
  intro dd v2 hdd
  unfold pairStep
  split
  · by_cases hc : (v1 = g1 ∧ v2 = g2) ∨ (v1 = g2 ∧ v2 = g1)
    · rw [exactScan_fix]
      · exact hdd
      · intro i1 hi1 i2 hi2
        obtain ⟨e1, he1, hb1, rfl⟩ := mem_index_query _ _ _ hi1
        obtain ⟨e2, he2, hb2, rfl⟩ := mem_index_query _ _ _ hi2
        unfold exactTest
        rcases hc with ⟨rfl, rfl⟩ | ⟨rfl, rfl⟩
        · exact (hdisj e1 he1 e2 he2).2
        · exact (hdisj e2 he2 e1 he1).1
    · intro hmem
      rcases mem_exactScan_cases _ _ _ _ _ _ _ _ _ hmem with h | ⟨hk, hx⟩ | ⟨hk, hx⟩
      · exact hdd h
      · exact hc (Or.inl ⟨hk.symm, hx.symm⟩)
      · exact hc (Or.inr ⟨hx.symm, hk.symm⟩)
  · exact hdd

/-- Witness for C4: two singleton groups with overlapping (touching) group
boxes but disjoint member geometries get no edge. -/
theorem findEdges_no_edge_when_disjoint_witness :
    "q" ∉ findEdges ctxBox ["p", "q"] bidPQ (fun _ => []) featsPQ "p" :=
  findEdges_no_edge_when_disjoint ctxBox ["p", "q"] bidPQ (fun _ => []) featsPQ
    "p" "q" (by decide) (by decide) (by simp)

/-- A rectangle that something intersects is itself non-empty, hence
intersects itself (the source's self-pair prefilter always passes for a
group rectangle built from mins and maxes). -/
theorem rect_self_intersects (b r : Rect) (h : Rect.intersects b r = true) :
    Rect.intersects r r = true := by
  unfold Rect.intersects at h ⊢
  simp only [Bool.and_eq_true, decide_eq_true_eq, max_self, min_self] at h ⊢
  exact ⟨le_trans (le_trans (le_max_right b.xMin r.xMin) h.1)
      (min_le_right b.xMax r.xMax),
    le_trans (le_trans (le_max_right b.yMin r.yMin) h.2)
      (min_le_right b.yMax r.yMax)⟩

/-- The overlap of a rectangle with itself is itself (`max a a = a`,
`min a a = a`), so the self-pair refinement region is the group rectangle. -/
theorem smallRectangle_self (r : Rect) : smallRectangle r r = r := by
  unfold smallRectangle
  simp only [max_self, min_self]

/-- C5: every group key whose stored index holds at least one member entry
whose box meets the group rectangle receives a self-loop from `findEdges`:
the self pair (g, g) is evaluated, its prefilter and refinement leave the
group rectangle unchanged, the member is retrieved as a candidate on both
sides, and the engine's exact test of a geometry against itself succeeds
(reflexivity hypothesis `hrefl`), so `updateEdges g g` fires — no two
distinct touching members are needed.  (For groups built by
`boundsAndIndexDict` the hypotheses on `e` always hold: each member's first
ring-0 vertex lies in the group rectangle and in the member's stored box.) -/
theorem findEdges_self_loop (ctx : GeoCtx) (valueSet : List String)
    (bid : String → Rect × SpatialIndex) (d0 : EdgeMap)
    (features : Nat → Feature) (g : String) (e : IndexEntry)
    (hg : g ∈ valueSet) (he : e ∈ (bid g).2)
    (hbb : Rect.intersects e.bbox (bid g).1 = true)
    (hrefl : ctx.gIntersects (features e.fid).geom (features e.fid).geom = true) :
    g ∈ findEdges ctx valueSet bid d0 features g := by
  unfold findEdges
  refine foldl_hit _ (fun d => g ∈ d g) ?_ g valueSet hg ?_ d0
  · intro d v1 hd
    exact foldl_pres _ (fun d => g ∈ d g)
      (fun dd v2 hdd => mem_mono_pairStep ctx bid features v1 dd v2 g g hdd)
      valueSet d hd
  · intro d
    refine foldl_hit _ (fun dd => g ∈ dd g) ?_ g valueSet hg ?_ d
    · intro dd v2 hdd
      exact mem_mono_pairStep ctx bid features g dd v2 g g hdd
    · intro dd
      unfold pairStep
      rw [if_pos (rect_self_intersects e.bbox (bid g).1 hbb),
        smallRectangle_self]
      exact exactScan_hit ctx features g g _ _ dd e.fid e.fid
        (fid_mem_index_query _ _ e he hbb) (fid_mem_index_query _ _ e he hbb)
        hrefl

/-- Witness for C5: a singleton group whose one member (the unit square)
yields a self-loop on its key. -/
theorem findEdges_self_loop_witness :
    "g" ∈ findEdges ctxBox ["g"] bidG (fun _ => []) featsG "g" :=
  findEdges_self_loop ctxBox ["g"] bidG (fun _ => []) featsG "g"
    ⟨5, ⟨0, 0, 1, 1⟩⟩ (by decide) (by decide) (by decide) (by decide)

/-- If the group scan succeeds, `rectBounds` succeeded on every scanned
feature (any failure would have propagated). -/
theorem scanGroupAux_ok_rectBounds (fs : List Feature) (idx : SpatialIndex)
    (xs ys : List Int) (out : SpatialIndex × List Int × List Int)
    (h : scanGroupAux fs idx xs ys = .ok out) :
    ∀ f ∈ fs, ∃ r, rectBounds f.geom = .ok r := by
  induction fs generalizing idx xs ys with
  | nil => intro f hf; cases hf
  | cons f0 rest ih =>
    intro f hf
    unfold scanGroupAux at h
    cases hr : rectBounds f0.geom with
    | error e => rw [hr] at h; cases h
    | ok fb =>
      rw [hr] at h
      rcases List.mem_cons.mp hf with rfl | hf2
      · exact ⟨fb, hr⟩
      · exact ih _ _ _ h f hf2

/-- If a group's entry was built, the group matched at least one feature and
every matching feature had a well-defined `rectBounds`. -/
theorem groupEntry_ok_facts (evalB : QgsExpression → Feature → Bool)
    (parseNum : String → Option Int) (layer : List Feature)
    (field value : String) (entry : Rect × SpatialIndex)
    (h : groupEntry evalB parseNum layer field value = .ok entry) :
    filter layer (evalB (buildExpression parseNum field value)) ≠ [] ∧
    ∀ f ∈ filter layer (evalB (buildExpression parseNum field value)),
      ∃ r, rectBounds f.geom = .ok r := by
  constructor
  · intro hemp
    unfold groupEntry at h
    rw [hemp] at h
    exact Except.noConfusion h
  · unfold groupEntry at h
    cases hs : scanGroupAux
        (filter layer (evalB (buildExpression parseNum field value))) [] [] [] with
    | error e => rw [hs] at h; cases h
    | ok res => exact scanGroupAux_ok_rectBounds _ _ _ _ _ hs

/-- If the whole dictionary was built, every key's group entry was built. -/
theorem boundsAndIndexDict_ok_groups (evalB : QgsExpression → Feature → Bool)
    (parseNum : String → Option Int) (layer : List Feature) (field : String)
    (vs : List String) (d : List (String × Rect × SpatialIndex))
    (h : boundsAndIndexDict evalB parseNum layer field vs = .ok d) :
    ∀ v ∈ vs, ∃ entry, groupEntry evalB parseNum layer field v = .ok entry := by
  induction vs generalizing d with
  | nil => intro v hv; cases hv
  | cons v0 rest ih =>
    intro v hv
    unfold boundsAndIndexDict at h
    cases hg : groupEntry evalB parseNum layer field v0 with
    | error e => rw [hg] at h; cases h
    | ok entry0 =>
      rw [hg] at h
      cases ht : boundsAndIndexDict evalB parseNum layer field rest with
      | error e => rw [ht] at h; cases h
      | ok tail =>
        rcases List.mem_cons.mp hv with rfl | hv2
        · exact ⟨entry0, hg⟩
        · exact ih tail ht v hv2

/-- C10: if some observed key's rebuilt equality predicate matches no feature
of the layer, group construction fails with a raised error (in the reached
group this is the `ValueError` of `min([])`) instead of producing an empty
group; equivalently, `boundsAndIndexDict` succeeds only when every key's
predicate round-trips to at least one matching feature. -/
theorem boundsAndIndexDict_requires_matches
    (evalB : QgsExpression → Feature → Bool) (parseNum : String → Option Int)
    (layer : List Feature) (field : String) (vs : List String) (v : String)
    (hv : v ∈ vs)
    (hempty : filter layer (evalB (buildExpression parseNum field v)) = []) :
    ∃ e, boundsAndIndexDict evalB parseNum layer field vs = .error e := by
  cases hres : boundsAndIndexDict evalB parseNum layer field vs with
  | error e => exact ⟨e, rfl⟩
  | ok d =>
    obtain ⟨entry, hentry⟩ :=
      boundsAndIndexDict_ok_groups evalB parseNum layer field vs d hres v hv
    exact absurd hempty
      (groupEntry_ok_facts evalB parseNum layer field v entry hentry).1

/-- Witness for C10: a key whose predicate matches nothing in an empty layer
makes group construction fail. -/
theorem boundsAndIndexDict_requires_matches_witness :
    ∃ e, boundsAndIndexDict evalEq decimalParse [] "grp" ["z"] = .error e :=
  boundsAndIndexDict_requires_matches evalEq decimalParse [] "grp" ["z"] "z"
    (by decide) (by decide)

/-- C9: a geometry with no polygonal ring (empty/non-polygon `asPolygon()`
form) makes `rectBounds` fail — the raised error the spec's taxonomy calls
`GeometryShapeError`, concretely the `ValueError` of `min([])` — and the
failure is fatal: whenever such a feature belongs to a scanned group, the
whole group construction aborts with a raised error. -/
theorem rectBounds_no_ring_fatal (g : Geometry) (hg : g = [])
    (evalB : QgsExpression → Feature → Bool) (parseNum : String → Option Int)
    (layer : List Feature) (field : String) (vs : List String) (v : String)
    (f : Feature) (hv : v ∈ vs)
    (hf : f ∈ filter layer (evalB (buildExpression parseNum field v)))
    (hfg : f.geom = g) :
    rectBounds g = .error .valueError ∧
    ∃ e, boundsAndIndexDict evalB parseNum layer field vs = .error e := by
  subst hg
  refine ⟨rfl, ?_⟩
  cases hres : boundsAndIndexDict evalB parseNum layer field vs with
  | error e => exact ⟨e, rfl⟩
  | ok d =>
    obtain ⟨entry, hentry⟩ :=
      boundsAndIndexDict_ok_groups evalB parseNum layer field vs d hres v hv
    obtain ⟨r, hr⟩ :=
      (groupEntry_ok_facts evalB parseNum layer field v entry hentry).2 f hf
    rw [hfg] at hr
    exact Except.noConfusion hr

/-- Witness for C9: one feature with a ring-less geometry in its group makes
`rectBounds` raise and the construction abort. -/
theorem rectBounds_no_ring_fatal_witness :
    rectBounds ([] : Geometry) = .error .valueError ∧
    ∃ e, boundsAndIndexDict evalEq decimalParse [fEmptyGeom] "grp" ["z"]
      = .error e :=
  rectBounds_no_ring_fatal [] rfl evalEq decimalParse [fEmptyGeom] "grp" ["z"]
    "z" fEmptyGeom (by decide) (by decide) rfl

/-- A built attribute row contains, for every schema field, the
representative's cell value (numeric on successful parse, text otherwise). -/
theorem rowFor_complete (evalB : QgsExpression → Feature → Bool)
    (parseNum : String → Option Int) (layer : List Feature)
    (vertexField : String) (layerFields : List String) (key : String)
    (row : List (String × AttrVal))
    (h : rowFor evalB parseNum layer vertexField layerFields key = some row) :
    ∀ fld ∈ layerFields,
      ∃ f, quickFilter layer (evalB (buildExpression parseNum vertexField key))
          = some f ∧
        (fld, attrVal parseNum f fld) ∈ row := by
  intro fld hfld
  unfold rowFor at h
  cases hq : quickFilter layer (evalB (buildExpression parseNum vertexField key)) with
  | some f =>
    rw [hq] at h
    injection h with h
    subst h
    exact ⟨f, rfl, List.mem_map_of_mem _ hfld⟩
  | none =>
    rw [hq] at h
    cases hlf : layerFields with
    | nil => rw [hlf] at hfld; cases hfld
    | cons a l =>
      rw [hlf] at h
      simp only [List.isEmpty_cons, if_neg] at h
      cases h

/-- C7: whenever the attribute-joining pass completes, every key of the graph
dictionary receives a (non-null) attribute row holding one entry per field of
the source schema, whose value is the representative feature's cell — stored
as a number when the numeric parse succeeds and as text otherwise. -/
theorem addAttributesDict_complete (evalB : QgsExpression → Feature → Bool)
    (parseNum : String → Option Int) (layer : List Feature)
    (vertexField : String) (layerFields : List String) (keys : List String)
    (out : List (String × List (String × AttrVal)))
    (h : addAttributesDict evalB parseNum layer vertexField layerFields keys
      = some out)
    (key : String) (hk : key ∈ keys) :
    ∃ row, (key, row) ∈ out ∧ ∀ fld ∈ layerFields,
      ∃ f, quickFilter layer (evalB (buildExpression parseNum vertexField key))
          = some f ∧
        (fld, attrVal parseNum f fld) ∈ row := by
  induction keys generalizing out with
  | nil => cases hk
  | cons k0 rest ih =>
    unfold addAttributesDict at h
    cases hr : rowFor evalB parseNum layer vertexField layerFields k0 with
    | none => rw [hr] at h; cases h
    | some row0 =>
      rw [hr] at h
      cases ht : addAttributesDict evalB parseNum layer vertexField layerFields
          rest with
      | none => rw [ht] at h; cases h
      | some tail =>
        rw [ht] at h
        injection h with h
        subst h
        rcases List.mem_cons.mp hk with rfl | hk2
        · exact ⟨row0, List.mem_cons_self _ _,
            rowFor_complete evalB parseNum layer vertexField layerFields key
              row0 hr⟩
        · obtain ⟨row, hrow, hall⟩ := ih tail ht hk2
          exact ⟨row, List.mem_cons_of_mem _ hrow, hall⟩

/-- Witness for C7: the concrete layer with one representative, a
numeric-looking field value ("42") stored as a number and a textual one
("north") stored as text. -/
theorem addAttributesDict_complete_witness :
    ∃ row,
      ("k", row) ∈
        [("k", [("size", AttrVal.num 42), ("name", AttrVal.text "north")])] ∧
      ∀ fld ∈ ["size", "name"],
        ∃ f, quickFilter [fRep]
            (evalEq (buildExpression decimalParse "grp" "k")) = some f ∧
          (fld, attrVal decimalParse f fld) ∈ row :=
  addAttributesDict_complete evalEq decimalParse [fRep] "grp" ["size", "name"]
    ["k"] [("k", [("size", AttrVal.num 42), ("name", AttrVal.text "north")])]
    (by decide) "k" (by decide)
